import Mathlib

/-!
Verification development for the vibe-coding XML-to-code engine.

The definitions below are a shallow embedding of the JavaScript source:
  - providers/xmlToCodeHelpers (convertTripleEqualsToCdata, normalizeFilePath,
    file-content helpers),
  - providers/xmlToCodeViewProvider.js (prepareXmlModifications,
    applyPendingChanges, getWorkspaceFileTree, copyFileTreeAsXml),
  - utils/fileUtils (writeFile).
Strings are modelled by Lean String / List Char; the filesystem and the
workspace reader are modelled as functions from (normalized) paths to
optional file contents.  All definitions are executable.
-/

/-- The JavaScript WhiteSpace and LineTerminator characters stripped by
String.prototype.trim: tab, LF, VT, FF, CR, space, NBSP, the unicode
space separators (U+1680, U+2000-200A, U+202F, U+205F, U+3000), the line
and paragraph separators (U+2028, U+2029) and the BOM (U+FEFF). -/
def isJsWs (c : Char) : Bool :=
  c = ' ' || c = '\t' || c = '\n' || c = '\r' || c = '\x0b' || c = '\x0c'
    || c.toNat = 0xA0 || c.toNat = 0x1680
    || (0x2000 ≤ c.toNat && c.toNat ≤ 0x200A)
    || c.toNat = 0x2028 || c.toNat = 0x2029 || c.toNat = 0x202F
    || c.toNat = 0x205F || c.toNat = 0x3000 || c.toNat = 0xFEFF

/-- JS String.prototype.trim on a character list. -/
def jsTrimList (l : List Char) : List Char :=
  ((l.dropWhile isJsWs).reverse.dropWhile isJsWs).reverse

/-- JS String.prototype.trim. -/
def jsTrim (s : String) : String :=
  ⟨jsTrimList s.data⟩

/-- Case-insensitive character comparison, as used by the /i regex flag. -/
def lcEq (a b : Char) : Bool :=
  a.toLower == b.toLower

/-- JS regex word character (\w): ASCII letters, digits, underscore. -/
def isWordChar (c : Char) : Bool :=
  c.isAlphanum || c = '_'

/-- startsWith on character lists (kernel-reducible form). -/
def strStartsWith (s pre : String) : Bool :=
  pre.data.isPrefixOf s.data

/-- endsWith on character lists (kernel-reducible form). -/
def strEndsWith (s post : String) : Bool :=
  post.data.reverse.isPrefixOf s.data.reverse

/-- String.prototype.indexOf(char) succeeding, on character lists. -/
def strContainsChar (s : String) (c : Char) : Bool :=
  s.data.contains c

/-- split on a separator character, with the semantics of JS split: empty
input gives one empty group, consecutive separators give empty groups. -/
def splitCharsOn (sep : Char) : List Char → List (List Char)
  | [] => [[]]
  | c :: cs =>
    match splitCharsOn sep cs with
    | [] => [[c]]
    | g :: gs => if c = sep then [] :: g :: gs else (c :: g) :: gs

/-- path.split of a string on the path separator. -/
def strSplitSlash (s : String) : List String :=
  (splitCharsOn '/' s.data).map (fun l => ⟨l⟩)

/-- Join of segments with the path separator. -/
def joinSegs : List String → String
  | [] => ""
  | [s] => s
  | s :: rest => s ++ "/" ++ joinSegs rest

/-- True when the list starts with the literal marker === . -/
def hasEqAt (l : List Char) : Bool :=
  ['=', '=', '='].isPrefixOf l

/-- JS String.prototype.indexOf for the marker === : position of the first
occurrence, if any. -/
def firstEq : List Char → Option Nat
  | [] => none
  | c :: cs => if hasEqAt (c :: cs) then some 0 else (firstEq cs).map (· + 1)

/-- Helper for lastEq: position of the last occurrence of === . -/
def lastEqAux : List Char → Option Nat
  | [] => none
  | c :: cs =>
    match lastEqAux cs with
    | some i => some (i + 1)
    | none => if hasEqAt (c :: cs) then some 0 else none

/-- JS String.prototype.lastIndexOf for the marker === . -/
def lastEq (l : List Char) : Option Nat :=
  lastEqAux l

/-- Number of positions at which the literal marker === occurs (overlapping
occurrences are counted at each starting position). -/
def tripleCount : List Char → Nat
  | [] => 0
  | c :: cs => (if hasEqAt (c :: cs) then 1 else 0) + tripleCount cs

/-- True when the text contains no === marker at all. -/
def noTriple : List Char → Bool
  | [] => true
  | c :: cs => !hasEqAt (c :: cs) && noTriple cs

/-- JS String.prototype.substring: indexes are clamped to the string length
and swapped when start exceeds end. -/
def jsSubstring (l : List Char) (a b : Nat) : List Char :=
  let a1 := min a l.length
  let b1 := min b l.length
  let lo := min a1 b1
  let hi := max a1 b1
  (l.drop lo).take (hi - lo)

/-- Case-insensitive literal match at the head of a list: on success returns
the matched slice (original case) and the remainder. -/
def matchCI : List Char → List Char → Option (List Char × List Char)
  | [], s => some ([], s)
  | _ :: _, [] => none
  | p :: ps, c :: cs =>
    if lcEq p c then (matchCI ps cs).map (fun r => (c :: r.1, r.2)) else none

/-- Scan [^>]*> : characters before the first > and the remainder after it. -/
def splitOnGt : List Char → Option (List Char × List Char)
  | [] => none
  | c :: cs =>
    if c = '>' then some ([], cs)
    else (splitOnGt cs).map (fun r => (c :: r.1, r.2))

/-- The literal characters of the opening-tag pattern <content . -/
def openTagChars : List Char := "<content".data

/-- The literal characters of the closing tag of a content region. -/
def closeTagChars : List Char := "</content>".data

/-- Match of the regex piece <content\b[^>]*> at the head of the input
(case-insensitive): returns the full opening-tag slice and the remainder. -/
def matchContentOpen (s : List Char) : Option (List Char × List Char) :=
  match matchCI openTagChars s with
  | none => none
  | some (sl, rest) =>
    match rest with
    | [] => none
    | r :: _ =>
      if isWordChar r then none
      else
        match splitOnGt rest with
        | none => none
        | some (attrs, after) => some (sl ++ attrs ++ ['>'], after)

/-- First (leftmost) case-insensitive occurrence of pat: returns the text
before it, the matched slice and the remainder after it. -/
def splitFirstCI (pat : List Char) : List Char → Option (List Char × List Char × List Char)
  | [] => none
  | c :: cs =>
    match matchCI pat (c :: cs) with
    | some (sl, rest) => some ([], sl, rest)
    | none =>
      match splitFirstCI pat cs with
      | some r => some (c :: r.1, r.2.1, r.2.2)
      | none => none

/-- Characters opening the replacement region produced by the fence repair. -/
def cdataOpenChars : List Char := "<content><![CDATA[".data

/-- Characters closing the replacement region produced by the fence repair. -/
def cdataCloseChars : List Char := "]]></content>".data

/-- The replace callback of convertTripleEqualsToCdata
(xmlToCodeHelpers, part_000 lines 326-336), acting on the inner text of one
content region: when the first and last === markers are at distinct
positions, the region is replaced by a CDATA region holding the JS
substring between firstIdx+3 and lastIdx; otherwise the region is kept
(result none). -/
def repairInside (inside : List Char) : Option (List Char) :=
  match firstEq inside, lastEq inside with
  | some fi, some li =>
    if fi < li then
      some (cdataOpenChars ++ jsSubstring inside (fi + 3) li ++ cdataCloseChars)
    else none
  | _, _ => none

/-- Global left-to-right scan of the regex
/<content\b[^>]*>([\s\S]*?)<\/content>/gi with the repairInside callback,
resuming after each replaced region, exactly as String.prototype.replace
does.  Fuel bounds the recursion; every recursive call consumes at least
one input character, so data.length + 1 fuel is always sufficient. -/
def repairScan : Nat → List Char → List Char
  | 0, s => s
  | _ + 1, [] => []
  | fuel + 1, c :: cs =>
    match matchContentOpen (c :: cs) with
    | none => c :: repairScan fuel cs
    | some (op, afterOpen) =>
      match splitFirstCI closeTagChars afterOpen with
      | none => c :: repairScan fuel cs
      | some (inside, closeSl, rest) =>
        match repairInside inside with
        | some repl => repl ++ repairScan fuel rest
        | none => op ++ inside ++ closeSl ++ repairScan fuel rest

/-- convertTripleEqualsToCdata (xmlToCodeHelpers): converts ===...===
blocks within content tags to CDATA sections. -/
def convertTripleEqualsToCdata (xmlString : String) : String :=
  ⟨repairScan (xmlString.data.length + 1) xmlString.data⟩

/-! ## Path normalization (xmlToCodeHelpers.normalizeFilePath) -/

/-- Node path.isAbsolute for POSIX paths. -/
def pathIsAbsolute (p : String) : Bool :=
  strStartsWith p "/"

/-- Segment processing of Node path.posix.normalize: empty and dot segments
vanish, dot-dot pops a previous segment; above the root, dot-dot segments
are kept for relative paths and dropped for absolute ones.  The first
argument is the reversed stack of output segments. -/
def normSegs (abs : Bool) : List String → List String → List String
  | stack, [] => stack.reverse
  | stack, seg :: rest =>
    if seg = "" || seg = "." then normSegs abs stack rest
    else if seg = ".." then
      match stack with
      | [] => normSegs abs (if abs then [] else [".."]) rest
      | top :: stk =>
        if top = ".." then normSegs abs (".." :: top :: stk) rest
        else normSegs abs stk rest
    else normSegs abs (seg :: stack) rest

/-- Node path.posix.normalize. -/
def pathNormalize (p : String) : String :=
  if p = "" then "."
  else
    let abs := strStartsWith p "/"
    let trail := strEndsWith p "/"
    let core := joinSegs (normSegs abs [] (strSplitSlash p))
    if core = "" then
      if abs then "/" else if trail then "./" else "."
    else
      let core2 := if trail then core ++ "/" else core
      if abs then "/" ++ core2 else core2

/-- normalizeFilePath (xmlToCodeHelpers, part_000 lines 349-357): absolute
paths are normalized as-is; relative paths are first given a ./ lead when
they have neither ./ nor ../ and then normalized. -/
def normalizeFilePath (filePath : String) : String :=
  if pathIsAbsolute filePath then pathNormalize filePath
  else
    let fp :=
      if !strStartsWith filePath "./" && !strStartsWith filePath "../" then
        "./" ++ filePath
      else filePath
    pathNormalize fp

/-! ## Root-repair checks (prepareXmlModifications lines 167-189) -/

/-- XML-ish whitespace for the \s regex class and tag scanning. -/
def isXmlWs (c : Char) : Bool :=
  c = ' ' || c = '\t' || c = '\n' || c = '\r'

/-- Does the regex piece \s*changes\b[^>]*> match at the head of the list
(the leading < has already been consumed)?  The source regex carries no /i
flag, so the literal is matched case-sensitively. -/
def changesTagAt (s : List Char) : Bool :=
  let s1 := s.dropWhile isXmlWs
  "changes".data.isPrefixOf s1 &&
    (match s1.drop 7 with
     | [] => false
     | r :: rest => !isWordChar r && (r :: rest).any (fun c => c = '>'))

/-- Test of /<\s*changes\b[^>]*>/ : some position starts a changes tag. -/
def containsChangesTagAux : List Char → Bool
  | [] => false
  | '<' :: rest => changesTagAt rest || containsChangesTagAux rest
  | _ :: rest => containsChangesTagAux rest

/-- Source check: /<\s*changes\b[^>]*>/.test(processedXml.trim()). -/
def containsChangesTag (s : String) : Bool :=
  containsChangesTagAux (jsTrim s).data

/-- Does \s*[\w-]+[^>]*> match right after a < ? -/
def rootTagAt (s : List Char) : Bool :=
  let s1 := s.dropWhile isXmlWs
  match s1 with
  | [] => false
  | c :: rest =>
    (isWordChar c || c = '-') && (c :: rest).any (fun d => d = '>')

/-- Test of /<\s*[\w-]+[^>]*>/ on the trimmed text. -/
def hasRootTagAux : List Char → Bool
  | [] => false
  | '<' :: rest => rootTagAt rest || hasRootTagAux rest
  | _ :: rest => hasRootTagAux rest

/-- Source check: /<\s*[\w-]+[^>]*>/.test(processedXml.trim()). -/
def hasRootTag (s : String) : Bool :=
  hasRootTagAux (jsTrim s).data

/-- Source check: /^\s*<\s*file\b/.test(processedXml.trim()); the regex
carries no /i flag, so file is matched case-sensitively. -/
def startsWithFileTag (s : String) : Bool :=
  match (jsTrim s).data with
  | '<' :: rest =>
    let s1 := rest.dropWhile isXmlWs
    "file".data.isPrefixOf s1 &&
      (match s1.drop 4 with
       | [] => true
       | r :: _ => !isWordChar r)
  | _ => false

/-- Root repair of prepareXmlModifications (lines 166-189): wrap the text
in a changes element when it has no root element at all, or when it starts
with a bare file element; otherwise leave it untouched. -/
def rootRepair (processed : String) : String :=
  if containsChangesTag processed then processed
  else if !hasRootTag processed then "<changes>" ++ processed ++ "</changes>"
  else if startsWithFileTag processed then "<changes>" ++ processed ++ "</changes>"
  else processed

/-! ## Generic markup parsing (the DOMParser step of prepareXmlModifications)

The source hands the repaired text to an XML parser (xmldom) and aborts the
compile call when the markup is structurally broken.  The parser below
models standard XML parsing of the dialect: elements with double-quoted
attributes, text nodes, CDATA sections and comments.  Character-entity
decoding is omitted: no input of the dialect (file payloads are carried in
CDATA) uses entities.  A structural failure yields none. -/

/-- Parsed markup node. -/
inductive XNode where
  | elem (tag : String) (attrs : List (String × String)) (children : List XNode)
  | text (s : String)
  | cdata (s : String)

mutual

/-- Structural equality of nodes (Bool form; the propositional form is
derived from it in the theorem section). -/
def xnodeEq : XNode → XNode → Bool
  | XNode.elem t1 a1 c1, XNode.elem t2 a2 c2 => t1 == t2 && a1 == a2 && xnodesEq c1 c2
  | XNode.text s1, XNode.text s2 => s1 == s2
  | XNode.cdata s1, XNode.cdata s2 => s1 == s2
  | _, _ => false

/-- Structural equality of node lists. -/
def xnodesEq : List XNode → List XNode → Bool
  | [], [] => true
  | x :: xs, y :: ys => xnodeEq x y && xnodesEq xs ys
  | _, _ => false

end

/-- Tag and attribute name characters. -/
def isNameChar (c : Char) : Bool :=
  c.isAlphanum || c = '_' || c = '-' || c = '.' || c = ':'

/-- Split at the first exact (case-sensitive) occurrence of pat: text
before it and text after it, or none when pat does not occur. -/
def splitSub (pat : List Char) : List Char → Option (List Char × List Char)
  | [] => none
  | c :: cs =>
    if pat.isPrefixOf (c :: cs) then some ([], (c :: cs).drop pat.length)
    else
      match splitSub pat cs with
      | some r => some (c :: r.1, r.2)
      | none => none

/-- Attribute-list scanner: returns the attributes, a self-closing flag and
the remainder after the closing > of the opening tag. -/
def parseAttrs : Nat → List Char → Option (List (String × String) × Bool × List Char)
  | 0, _ => none
  | fuel + 1, s =>
    match s.dropWhile isXmlWs with
    | [] => none
    | '>' :: r => some ([], false, r)
    | '/' :: '>' :: r => some ([], true, r)
    | s1 =>
      let an := s1.takeWhile isNameChar
      let r1 := s1.dropWhile isNameChar
      if an.isEmpty then none
      else
        match r1.dropWhile isXmlWs with
        | '=' :: r2 =>
          match r2.dropWhile isXmlWs with
          | '"' :: r3 =>
            let v := r3.takeWhile (fun c => c ≠ '"')
            match r3.dropWhile (fun c => c ≠ '"') with
            | '"' :: r5 =>
              (parseAttrs fuel r5).map (fun r => ((⟨an⟩, ⟨v⟩) :: r.1, r.2.1, r.2.2))
            | _ => none
          | _ => none
        | _ => none

/-- Tolerant node-sequence parser: the model of xmldom 0.6.0 driven with
the logging-only errorHandler installed at lines 196-206 of the provider,
under which parseFromString never throws and recovers from malformed
markup.  Sibling nodes are parsed until a closing tag naming the innermost
open element (cur) or the end of input; a closing tag naming anything else
is reported to the handler and skipped (the xmldom end-tag-mismatch
recovery), and elements still open at the end of input are closed there
(the xmldom unclosed-tag recovery).  Entity decoding is omitted: the
dialect carries its payloads in CDATA sections.  The returned remainder is
empty or starts with the matching closing tag. -/
def parseNodesT : Nat → Option String → List Char → List XNode × List Char
  | 0, _, s => ([], s)
  | fuel + 1, cur, s =>
    match s with
    | [] => ([], [])
    | '<' :: '/' :: rest =>
      let nm := rest.takeWhile isNameChar
      match (rest.dropWhile isNameChar).dropWhile isXmlWs with
      | '>' :: r2 =>
        if cur == some (⟨nm⟩ : String) then ([], '<' :: '/' :: rest)
        else parseNodesT fuel cur r2
      | _ =>
        match splitOnGt rest with
        | some (_, r2) => parseNodesT fuel cur r2
        | none => ([], [])
    | '<' :: '!' :: rest =>
      if "[CDATA[".data.isPrefixOf rest then
        match splitSub "]]>".data (rest.drop 7) with
        | some (inner, after) =>
          let r := parseNodesT fuel cur after
          (XNode.cdata ⟨inner⟩ :: r.1, r.2)
        | none => ([XNode.cdata ⟨rest.drop 7⟩], [])
      else if "--".data.isPrefixOf rest then
        match splitSub "-->".data (rest.drop 2) with
        | some (_, after) => parseNodesT fuel cur after
        | none => ([], [])
      else
        match splitOnGt rest with
        | some (_, r2) => parseNodesT fuel cur r2
        | none => ([], [])
    | '<' :: rest =>
      let nm := rest.takeWhile isNameChar
      let r1 := rest.dropWhile isNameChar
      if nm.isEmpty then
        let r := parseNodesT fuel cur rest
        (XNode.text "<" :: r.1, r.2)
      else
        match parseAttrs (r1.length + 1) r1 with
        | none =>
          match splitOnGt rest with
          | some (_, r2) => parseNodesT fuel cur r2
          | none => ([], [])
        | some (attrs, true, r2) =>
          let r := parseNodesT fuel cur r2
          (XNode.elem ⟨nm⟩ attrs [] :: r.1, r.2)
        | some (attrs, false, r2) =>
          let cr := parseNodesT fuel (some ⟨nm⟩) r2
          match cr.2 with
          | '<' :: '/' :: r4 =>
            match (r4.dropWhile isNameChar).dropWhile isXmlWs with
            | '>' :: r6 =>
              let r := parseNodesT fuel cur r6
              (XNode.elem ⟨nm⟩ attrs cr.1 :: r.1, r.2)
            | _ => ([XNode.elem ⟨nm⟩ attrs cr.1], [])
          | _ =>
            let r := parseNodesT fuel cur cr.2
            (XNode.elem ⟨nm⟩ attrs cr.1 :: r.1, r.2)
    | _ =>
      let txt := s.takeWhile (fun c => c ≠ '<')
      let r1 := s.dropWhile (fun c => c ≠ '<')
      let r := parseNodesT fuel cur r1
      (XNode.text ⟨txt⟩ :: r.1, r.2)

/-- Whole-document parse under the recovering parser: total, as the
source's parseFromString call is with its logging-only errorHandler. -/
def parseXmlT (s : String) : List XNode :=
  (parseNodesT (s.data.length + 1) none s.data).1

/-! ## DOM helpers (getElementsByTagName, textContent, getAttribute) -/

mutual

/-- Descendant-or-self elements of one node with the given tag, in document
order (the node itself first, then its subtree). -/
def elemsInNode (tag : String) : XNode → List XNode
  | XNode.elem t a ch =>
    (if t == tag then [XNode.elem t a ch] else []) ++ elemsIn tag ch
  | _ => []

/-- All descendant-or-self elements with the given tag, in document order
(the DOM getElementsByTagName traversal). -/
def elemsIn (tag : String) : List XNode → List XNode
  | [] => []
  | x :: rest => elemsInNode tag x ++ elemsIn tag rest

end

/-- Proper-descendant elements with the given tag (getElementsByTagName on
an element node). -/
def descElems (tag : String) : XNode → List XNode
  | XNode.elem _ _ ch => elemsIn tag ch
  | _ => []

mutual

/-- DOM textContent of a node. -/
def textContent : XNode → String
  | XNode.text s => s
  | XNode.cdata s => s
  | XNode.elem _ _ ch => textContentList ch

/-- Concatenated textContent of a node list. -/
def textContentList : List XNode → String
  | [] => ""
  | x :: xs => textContent x ++ textContentList xs

end

/-- DOM getAttribute, with a missing attribute read as the falsy value the
source tests for (missing and empty are treated alike by the code). -/
def getAttr (attrs : List (String × String)) (nm : String) : String :=
  match attrs.find? (fun a => a.1 == nm) with
  | some a => a.2
  | none => ""

/-! ## The change-set compiler (prepareXmlModifications, lines 157-337) -/

/-- One proposed file mutation, as built by prepareXmlModifications.  The
source keeps these in this.pendingChanges; the position in that list is
the selection index. -/
structure FileChange where
  filePath : String
  action : String
  description : String
  before : String
  after : String
deriving DecidableEq

/-- Reader for current on-disk content: getFileContent and getBeforeContent
both resolve the (already normalized) path against the workspace root and
recover failures or missing files as the empty string. -/
def readFileD (reader : String → Option String) (p : String) : String :=
  (reader p).getD ""

/-- The trimmed description of a change element: the first description
child if present, else empty. -/
def descriptionOf (node : XNode) : String :=
  match (descElems "description" node).head? with
  | some d => jsTrim (textContent d)
  | none => ""

/-- The extracted raw payload: JS leaves a falsy (empty) textContent as is
and trims a non-empty one. -/
def rawCodeOf (raw : String) : String :=
  if raw == "" then "" else jsTrim raw

/-- Processing of one change element (lines 274-325): the first description
child supplies the trimmed description; a change without a content child is
skipped; an empty rewrite payload turns into a delete; create and rewrite
push a change carrying the trimmed payload; any other action is skipped. -/
def changeNodeResult (reader : String → Option String) (filePath action : String)
    (node : XNode) : Option FileChange :=
  match (descElems "content" node).head? with
  | none => none
  | some cn =>
    let description := descriptionOf node
    let rawCode := rawCodeOf (textContent cn)
    if action == "rewrite" && rawCode == "" then
      some { filePath := filePath, action := "delete",
             description := "Delete file " ++ filePath,
             before := readFileD reader filePath, after := "" }
    else if action == "create" || action == "rewrite" then
      some { filePath := filePath, action := action,
             description :=
               if description == "" then
                 (if action == "create" then "Create file " else "Rewrite file ") ++ filePath
               else description,
             before := if action == "rewrite" then readFileD reader filePath else "",
             after := rawCode }
    else none

/-- Changes contributed by one file element (lines 231-327): elements with
a missing path or action are skipped; delete synthesizes a single change
with the on-disk before snapshot; create and rewrite with no change child
synthesize a single empty change; otherwise each change child is processed
by changeNodeResult. -/
def fileNodeChanges (reader : String → Option String) (node : XNode) : List FileChange :=
  match node with
  | XNode.elem _ attrs _ =>
    let pathAttr := getAttr attrs "path"
    let actionAttr := getAttr attrs "action"
    if pathAttr == "" || actionAttr == "" then []
    else
      let filePath := normalizeFilePath pathAttr
      let changeNodes := descElems "change" node
      if actionAttr == "delete" then
        [{ filePath := filePath, action := "delete",
           description := "Delete file " ++ filePath,
           before := readFileD reader filePath, after := "" }]
      else if changeNodes.isEmpty then
        if actionAttr == "create" || actionAttr == "rewrite" then
          [{ filePath := filePath, action := actionAttr,
             description :=
               (if actionAttr == "create" then "Create file " else "Rewrite file ") ++ filePath,
             before := if actionAttr == "rewrite" then readFileD reader filePath else "",
             after := "" }]
        else []
      else changeNodes.filterMap (changeNodeResult reader filePath actionAttr)
  | _ => []

/-- All changes extracted from a parsed document, in document order. -/
def extractChanges (reader : String → Option String) (roots : List XNode) : List FileChange :=
  (elemsIn "file" roots).flatMap (fileNodeChanges reader)

/-- Outcome of one compile call, matching the reachable return paths of
prepareXmlModifications.  The parse-error returns of the source (the catch
at lines 209-213 and the parsererror check at lines 215-220) have no
outcome here because they are unreachable: xmldom 0.6.0 with the
logging-only errorHandler neither throws nor creates parsererror elements,
so every call that passes the empty-input check reaches line 222. -/
inductive PrepareOutcome where
  | noInput
  | noFileNodes
  | noValidChanges
  | ok
deriving DecidableEq

/-- prepareXmlModifications as a state transformer on the pending-change
batch: the first component of the result is the new this.pendingChanges.
Only the empty-input return (lines 158-161) leaves the previous batch in
place.  Every other call parses — the recovering parse cannot fail — and
then clears the batch at line 222 before extraction, so the empty-result
returns and the success path all start from an empty batch. -/
def prepareXmlModifications (prev : List FileChange) (xmlInput : String)
    (reader : String → Option String) : List FileChange × PrepareOutcome :=
  if xmlInput == "" then (prev, PrepareOutcome.noInput)
  else
    let processed := rootRepair (convertTripleEqualsToCdata xmlInput)
    let roots := parseXmlT processed
    let fileNodes := elemsIn "file" roots
    if fileNodes.isEmpty then ([], PrepareOutcome.noFileNodes)
    else
      let changes := fileNodes.flatMap (fileNodeChanges reader)
      if changes.isEmpty then ([], PrepareOutcome.noValidChanges)
      else (changes, PrepareOutcome.ok)

/-! ## The change applier (applyPendingChanges, lines 393-409) -/

/-- The live filesystem, keyed by the filePath strings carried by the
changes (all resolved against the same workspace root). -/
def FS : Type := String → Option String

/-- writeFile (utils/fileUtils): full truncate-and-write replacement. -/
def fsWrite (p c : String) (fs : FS) : FS :=
  fun q => if q == p then some c else fs q

/-- deleteFile: removal of the target path (a failing delete of a missing
file is caught per item and leaves the filesystem as it was). -/
def fsDelete (p : String) (fs : FS) : FS :=
  fun q => if q == p then none else fs q

/-- One applied change: delete removes the path, anything else writes the
after snapshot. -/
def applyOne (fs : FS) (c : FileChange) : FS :=
  if c.action == "delete" then fsDelete c.filePath fs else fsWrite c.filePath c.after fs

/-- The filter this.pendingChanges.filter((_, i) => selectedIndexes.includes(i)),
walking the batch in order with its position index. -/
def selectAux (sel : List Nat) : Nat → List FileChange → List FileChange
  | _, [] => []
  | i, c :: cs =>
    if sel.contains i then c :: selectAux sel (i + 1) cs else selectAux sel (i + 1) cs

/-- The selected sub-batch, in document order. -/
def selectedChanges (pending : List FileChange) (sel : List Nat) : List FileChange :=
  selectAux sel 0 pending

/-- Report of one apply call. -/
inductive ApplyOutcome where
  | nothingApplied
  | applied
deriving DecidableEq

/-- applyPendingChanges: filters the batch by selected index; an empty
selection reports that nothing was applied and keeps the batch; otherwise
the selected changes run in order and the batch is cleared. -/
def applyPendingChanges (pending : List FileChange) (sel : List Nat) (fs : FS) :
    FS × ApplyOutcome × List FileChange :=
  let toApply := selectedChanges pending sel
  if toApply.isEmpty then (fs, ApplyOutcome.nothingApplied, pending)
  else (toApply.foldl applyOne fs, ApplyOutcome.applied, [])

/-! ## The XML emitter (copyFileTreeAsXml, lines 568-779) -/

/-- The fixed binary and media extension denylist (lines 615-621). -/
def binaryFileExtensions : List String :=
  [".pack", ".pack.gz", ".pack.old", ".gz", ".zip", ".jar", ".war",
   ".ear", ".class", ".so", ".dll", ".exe", ".obj", ".o", ".a", ".lib",
   ".pyc", ".pyo", ".jpg", ".jpeg", ".png", ".gif", ".bmp", ".ico", ".tif",
   ".tiff", ".mp3", ".mp4", ".avi", ".mov", ".wmv", ".flv", ".ogg", ".wav",
   ".pdf", ".doc", ".docx", ".xls", ".xlsx", ".ppt", ".pptx"]

/-- binaryFileExtensions.some(ext => relativePath.endsWith(ext)). -/
def isBinaryPath (relativePath : String) : Bool :=
  binaryFileExtensions.any (fun ext => strEndsWith relativePath ext)

/-- The content-inclusion filter of copyFileTreeAsXml (lines 683-715): with
a non-empty selection, a non-binary file is included when it is explicitly
selected, or when it is under a selected directory; the directory test
accepts equality, a segment-separated lead (dirPath plus slash), or — for
any selected directory path containing a slash — a plain string lead.
With an empty selection every non-binary file is included. -/
def includeFileInContent (selFiles selDirs : List String) (relativePath : String) : Bool :=
  if selFiles.length > 0 || selDirs.length > 0 then
    if isBinaryPath relativePath then false
    else if selFiles.contains relativePath then true
    else
      selDirs.any (fun dirPath =>
        (relativePath == dirPath
          || strStartsWith relativePath (dirPath ++ "/")
          || (strContainsChar dirPath '/' && strStartsWith relativePath dirPath))
        && !isBinaryPath relativePath)
  else !isBinaryPath relativePath

/-- The per-file XML block emitted for an included file (line 743), with
the on-disk content wrapped in the === fence convention. -/
def emittedFileXml (relativePath content : String) : String :=
  "  <file path=\"" ++ relativePath ++ "\" action=\"rewrite\">\n    <change>\n      <description>File content</description>\n      <content>===\n"
    ++ content
    ++ "\n===</content>\n    </change>\n  </file>\n"

/-! ## The workspace tree builder (getWorkspaceFileTree, lines 426-563) -/

/-- Node of the workspace tree: file variant with byte size, directory
variant with ordered children; selected and expanded carry the original
presentation defaults. -/
inductive WNode where
  | file (path nm : String) (size : Nat) (selected expanded : Bool)
  | dir (path nm : String) (children : List WNode) (selected expanded : Bool)

/-- Path carried by a node. -/
def wpath : WNode → String
  | WNode.file p _ _ _ _ => p
  | WNode.dir p _ _ _ _ => p

/-- Is there a directory node with the given cumulative path at this level
(the directoryMap lookup)? -/
def containsDir (nodes : List WNode) (dirPath : String) : Bool :=
  nodes.any (fun n =>
    match n with
    | WNode.dir p _ _ _ _ => p == dirPath
    | _ => false)

/-- Replace the children of the first directory node with the given
cumulative path (the in-place mutation through the directoryMap entry). -/
def mapUpdateDir (nodes : List WNode) (dirPath : String) (f : List WNode → List WNode) :
    List WNode :=
  match nodes with
  | [] => []
  | WNode.dir p n ch s e :: rest =>
    if p == dirPath then WNode.dir p n (f ch) s e :: rest
    else WNode.dir p n ch s e :: mapUpdateDir rest dirPath f
  | x :: rest => x :: mapUpdateDir rest dirPath f

/-- Insertion of a file node below the given directory-part chain,
materializing or reusing one directory node per cumulative path and
appending new nodes at the end of each level (lines 487-524). -/
def insertFile (nodes : List WNode) (parent : String) (parts : List String)
    (obj : WNode) : List WNode :=
  match parts with
  | [] => nodes ++ [obj]
  | part :: rest =>
    let dirPath := if parent == "" then part else parent ++ "/" ++ part
    if containsDir nodes dirPath then
      mapUpdateDir nodes dirPath (fun ch => insertFile ch dirPath rest obj)
    else
      nodes ++ [WNode.dir dirPath part (insertFile [] dirPath rest obj) true false]

/-- Stable insertion of one element under a Bool comparator. -/
def insertSorted (le : WNode → WNode → Bool) (x : WNode) : List WNode → List WNode
  | [] => [x]
  | y :: ys => if le x y then x :: y :: ys else y :: insertSorted le x ys

/-- Stable insertion sort, the model used here for JS Array.prototype.sort
with a comparator. -/
def sortByLe (le : WNode → WNode → Bool) : List WNode → List WNode
  | [] => []
  | x :: xs => insertSorted le x (sortByLe le xs)

/-- Code-point comparison of names, the model of localeCompare. -/
def charListLe : List Char → List Char → Bool
  | [], _ => true
  | _ :: _, [] => false
  | a :: as1, b :: bs => if a = b then charListLe as1 bs else decide (a.toNat < b.toNat)

/-- The sortTree comparator (lines 531-537): directories before files, then
names in order. -/
def nodeLe (a b : WNode) : Bool :=
  match a, b with
  | WNode.dir _ na _ _ _, WNode.dir _ nb _ _ _ => charListLe na.data nb.data
  | WNode.dir _ _ _ _ _, WNode.file _ _ _ _ _ => true
  | WNode.file _ _ _ _ _, WNode.dir _ _ _ _ _ => false
  | WNode.file _ na _ _ _, WNode.file _ nb _ _ _ => charListLe na.data nb.data

mutual

/-- Recursive sorting of a node (directories recurse into children). -/
def sortNode : WNode → WNode
  | WNode.file p n s sel e => WNode.file p n s sel e
  | WNode.dir p n ch sel e => WNode.dir p n (sortByLe nodeLe (sortNodes ch)) sel e

/-- Recursive sorting of each node of a list. -/
def sortNodes : List WNode → List WNode
  | [] => []
  | x :: xs => sortNode x :: sortNodes xs

end

/-- sortTree (lines 531-547): each level ordered by the comparator,
recursively. -/
def sortTree (nodes : List WNode) : List WNode :=
  sortByLe nodeLe (sortNodes nodes)

/-- Size used by the biggest-files comparator. -/
def wsize : WNode → Nat
  | WNode.file _ _ s _ _ => s
  | WNode.dir _ _ _ _ _ => 0

/-- Comparator (a, b) => b.size - a.size: a placed before b when its size
is at least as large. -/
def sizeGe (a b : WNode) : Bool :=
  decide (wsize b ≤ wsize a)

/-- Per-file body of the tree-build loop (lines 456-528): an ignored file
is skipped, a stat failure skips the file entirely (the whole per-file
body sits in the try block, lines 465-527), and otherwise the file node
joins the biggest-files list and the tree. -/
def treeStep (ig : String → Bool) (stat : String → Option Nat)
    (acc : List WNode × List WNode) (rel : String) : List WNode × List WNode :=
  if ig rel then acc
  else
    match stat rel with
    | none => acc
    | some size =>
      let parts := strSplitSlash rel
      let fileName := (parts.getLast?).getD ""
      let dirParts := parts.dropLast
      let obj := WNode.file rel fileName size true false
      (insertFile acc.1 "" dirParts obj, acc.2 ++ [obj])

/-- getWorkspaceFileTree over an enumerated file list: each retained file
is processed by treeStep; finally the tree is sorted recursively and the
biggest-files index is the top ten by size. -/
def getWorkspaceFileTree (ig : String → Bool) (stat : String → Option Nat)
    (files : List String) : List WNode × List WNode :=
  let built := files.foldl (treeStep ig stat) ([], [])
  (sortTree built.1, (sortByLe sizeGe built.2).take 10)

mutual

/-- Is there a file node with the given path anywhere in the node? -/
def nodeHasFile (q : String) : WNode → Bool
  | WNode.file p _ _ _ _ => p == q
  | WNode.dir _ _ ch _ _ => nodesHaveFile q ch

/-- Is there a file node with the given path anywhere in the forest? -/
def nodesHaveFile (q : String) : List WNode → Bool
  | [] => false
  | x :: xs => nodeHasFile q x || nodesHaveFile q xs

end

/-! ## Spec-side definitions and concrete claim inputs -/

/-- Following the words of the spec for the fence repair: the substring
strictly between the first occurrence (which ends at fi + 3) and the last
occurrence (which starts at li), empty when the two overlap. -/
def specStrictBetween (l : List Char) (fi li : Nat) : List Char :=
  (l.drop (fi + 3)).take (li - (fi + 3))

/-- The fence-repair claim instantiated at one content region, exactly as
stated: with at least two marker occurrences the payload is the substring
strictly between the first and last occurrence; with fewer the region text
is passed through unchanged. -/
def c4RegionClaimAt (inside : String) : Prop :=
  (2 ≤ tripleCount inside.data →
    convertTripleEqualsToCdata ("<content>" ++ inside ++ "</content>") =
      ⟨cdataOpenChars
        ++ specStrictBetween inside.data ((firstEq inside.data).getD 0) ((lastEq inside.data).getD 0)
        ++ cdataCloseChars⟩) ∧
  (tripleCount inside.data < 2 →
    convertTripleEqualsToCdata ("<content>" ++ inside ++ "</content>") =
      "<content>" ++ inside ++ "</content>")

/-- Following the words of the spec for emitter inclusion: explicitly
selected, or under a selected directory by whole path segments. -/
def specSegIncluded (selFiles selDirs : List String) (rel : String) : Prop :=
  rel ∈ selFiles ∨ ∃ d ∈ selDirs, rel = d ∨ strStartsWith rel (d ++ "/") = true

/-- The directory-inclusion claim instantiated at one selection and one
candidate path. -/
def c6ClaimAt (selFiles selDirs : List String) (rel : String) : Prop :=
  includeFileInContent selFiles selDirs rel = true ↔ specSegIncluded selFiles selDirs rel

/-- Concrete scenario input of the two-element claim. -/
def c2Input : String :=
  "<file path=\"new.txt\" action=\"create\"><change><content>===\nhello\n===</content></change></file><file path=\"old.txt\" action=\"delete\"></file>"

/-- Workspace reader of the scenario: old.txt exists with content bye. -/
def c2Reader : String → Option String :=
  fun p => if p == "old.txt" then some "bye" else none

/-- Filesystem of the scenario before apply. -/
def c2Fs0 : FS :=
  fun p => if p == "old.txt" then some "bye" else none

/-- The change list the code actually compiles for the scenario. -/
def c2Changes : List FileChange :=
  [{ filePath := "new.txt", action := "create",
     description := "Create file new.txt", before := "", after := "hello" },
   { filePath := "old.txt", action := "delete",
     description := "Delete file old.txt", before := "bye", after := "" }]

/-- Concrete empty-rewrite input of the delete-reinterpretation claim. -/
def c3Input : String :=
  "<file path=\"a.txt\" action=\"rewrite\"><change><content>===\n\n===</content></change></file>"

/-- Reader with a previous version of a.txt on disk. -/
def c3Reader : String → Option String :=
  fun p => if p == "a.txt" then some "prev" else none

/-- A non-empty previous pending batch. -/
def c5Prev : List FileChange :=
  [{ filePath := "keep.txt", action := "create",
     description := "Create file keep.txt", before := "", after := "k" }]

/-- A structurally broken input: mismatched closing tag. -/
def c5BadInput : String :=
  "<changes><file path=\"x\" action=\"create\"></nope></changes>"

/-- Emitter output for a one-file workspace whose file content carries a
trailing newline. -/
def c1Input : String :=
  emittedFileXml "a.txt" "hello\n"

/-- Reader holding the on-disk content at emission time. -/
def c1Reader : String → Option String :=
  fun p => if p == "a.txt" then some "hello\n" else none


/-! ## Helper lemmas -/

set_option maxRecDepth 40000

set_option maxHeartbeats 1600000

mutual

theorem xnodeEq_sound : ∀ a b : XNode, xnodeEq a b = true → a = b
  | XNode.elem t1 a1 c1, XNode.elem t2 a2 c2, h => by
    simp only [xnodeEq, Bool.and_eq_true, beq_iff_eq] at h
    obtain ⟨⟨ht, ha⟩, hc⟩ := h
    subst ht
    subst ha
    rw [xnodesEq_sound c1 c2 hc]
  | XNode.elem _ _ _, XNode.text _, h => by simp [xnodeEq] at h
  | XNode.elem _ _ _, XNode.cdata _, h => by simp [xnodeEq] at h
  | XNode.text _, XNode.elem _ _ _, h => by simp [xnodeEq] at h
  | XNode.text s1, XNode.text s2, h => by
    simp only [xnodeEq, beq_iff_eq] at h
    rw [h]
  | XNode.text _, XNode.cdata _, h => by simp [xnodeEq] at h
  | XNode.cdata _, XNode.elem _ _ _, h => by simp [xnodeEq] at h
  | XNode.cdata _, XNode.text _, h => by simp [xnodeEq] at h
  | XNode.cdata s1, XNode.cdata s2, h => by
    simp only [xnodeEq, beq_iff_eq] at h
    rw [h]

theorem xnodesEq_sound : ∀ as1 bs : List XNode, xnodesEq as1 bs = true → as1 = bs
  | [], [], _ => rfl
  | [], _ :: _, h => by simp [xnodesEq] at h
  | _ :: _, [], h => by simp [xnodesEq] at h
  | x :: xs, y :: ys, h => by
    simp only [xnodesEq, Bool.and_eq_true] at h
    rw [xnodeEq_sound x y h.1, xnodesEq_sound xs ys h.2]

end

/-- Staged evaluation of a successful compile call: the hypotheses record
each pipeline stage on the concrete input. -/
theorem prepareXml_eval (prev : List FileChange) (input conv wrapped : String)
    (reader : String → Option String) (doc : List XNode) (res : List FileChange)
    (h0 : (input == "") = false)
    (h1 : convertTripleEqualsToCdata input = conv)
    (h2 : rootRepair conv = wrapped)
    (h3 : parseXmlT wrapped = doc)
    (h4 : (elemsIn "file" doc).isEmpty = false)
    (h5 : (elemsIn "file" doc).flatMap (fileNodeChanges reader) = res)
    (h6 : res.isEmpty = false) :
    prepareXmlModifications prev input reader = (res, PrepareOutcome.ok) := by
  unfold prepareXmlModifications
  rw [h0]
  simp only [Bool.false_eq_true, if_false, h1, h2, h3, h4, h5, h6]

/-! ## Claim counterexamples and concrete theorems -/

/-- C4 counterexample: on the region text ==== the markers overlap (first
occurrence at 0, last at 1, so at least two occurrences), yet the payload
the code produces is the two equals signs between the swapped substring
bounds, not the empty substring strictly between the occurrences. -/
theorem c4_cex : ¬ c4RegionClaimAt "====" := by
  unfold c4RegionClaimAt
  decide

/-- C6 counterexample: with the directory src/lib selected, the sibling
file src/lib2/b.js is included by the naive string-lead branch although it
is not under src/lib by path segments. -/
theorem c6_cex : ¬ c6ClaimAt [] ["src/lib"] "src/lib2/b.js" := by
  unfold c6ClaimAt specSegIncluded
  decide

/-- C2 counterexample: the compiled filePaths are new.txt and old.txt —
Node path.normalize strips the ./ lead the claim expects. -/
theorem c2_cex :
    (prepareXmlModifications [] c2Input c2Reader).1.map (fun c => c.filePath)
      = ["new.txt", "old.txt"]
    ∧ ("new.txt" : String) ≠ "./new.txt" := by
  have h3 : parseXmlT "<changes><file path=\"new.txt\" action=\"create\"><change><content><![CDATA[\nhello\n]]></content></change></file><file path=\"old.txt\" action=\"delete\"></file></changes>"
      = [XNode.elem "changes" []
          [XNode.elem "file" [("path", "new.txt"), ("action", "create")]
            [XNode.elem "change" [] [XNode.elem "content" [] [XNode.cdata "\nhello\n"]]],
           XNode.elem "file" [("path", "old.txt"), ("action", "delete")] []]] :=
    xnodesEq_sound _ _ (by decide)
  have he := prepareXml_eval [] c2Input
    "<file path=\"new.txt\" action=\"create\"><change><content><![CDATA[\nhello\n]]></content></change></file><file path=\"old.txt\" action=\"delete\"></file>"
    "<changes><file path=\"new.txt\" action=\"create\"><change><content><![CDATA[\nhello\n]]></content></change></file><file path=\"old.txt\" action=\"delete\"></file></changes>"
    c2Reader _ c2Changes
    (by decide) (by decide) (by decide) h3 (by decide) (by decide) (by decide)
  rw [he]
  exact ⟨by decide, by decide⟩

/-- C2 amended scenario, proved end to end on the concrete input: compile
yields the two records in document order with the normalized (lead-free)
paths, and applying both selected indexes writes new.txt with hello,
removes old.txt, reports application and clears the batch. -/
theorem c2_theorem :
    prepareXmlModifications [] c2Input c2Reader = (c2Changes, PrepareOutcome.ok)
    ∧ (applyPendingChanges c2Changes [0, 1] c2Fs0).1 "new.txt" = some "hello"
    ∧ (applyPendingChanges c2Changes [0, 1] c2Fs0).1 "old.txt" = none
    ∧ (applyPendingChanges c2Changes [0, 1] c2Fs0).2.1 = ApplyOutcome.applied
    ∧ (applyPendingChanges c2Changes [0, 1] c2Fs0).2.2 = [] := by
  have h3 : parseXmlT "<changes><file path=\"new.txt\" action=\"create\"><change><content><![CDATA[\nhello\n]]></content></change></file><file path=\"old.txt\" action=\"delete\"></file></changes>"
      = [XNode.elem "changes" []
          [XNode.elem "file" [("path", "new.txt"), ("action", "create")]
            [XNode.elem "change" [] [XNode.elem "content" [] [XNode.cdata "\nhello\n"]]],
           XNode.elem "file" [("path", "old.txt"), ("action", "delete")] []]] :=
    xnodesEq_sound _ _ (by decide)
  refine ⟨prepareXml_eval [] c2Input
    "<file path=\"new.txt\" action=\"create\"><change><content><![CDATA[\nhello\n]]></content></change></file><file path=\"old.txt\" action=\"delete\"></file>"
    "<changes><file path=\"new.txt\" action=\"create\"><change><content><![CDATA[\nhello\n]]></content></change></file><file path=\"old.txt\" action=\"delete\"></file></changes>"
    c2Reader _ c2Changes
    (by decide) (by decide) (by decide) h3 (by decide) (by decide) (by decide),
    by decide, by decide, by decide, by decide⟩

/-- C1: code bug — the spec's round-trip property fails on the code's own
emitter output: compiling the per-file block emitted for a file whose
on-disk content is hello with a trailing newline yields an after snapshot
of hello without it, because the compiler trims the fenced payload (line
293), so the restored content is not the on-disk content (the binary
denylist half of the claim does hold: denylisted files are absent
entries). -/
theorem c1_theorem :
    (prepareXmlModifications [] c1Input c1Reader).1
      = [{ filePath := "a.txt", action := "rewrite", description := "File content",
           before := "hello\n", after := "hello" }]
    ∧ ("hello" : String) ≠ "hello\n" := by
  have h3 : parseXmlT "<changes>  <file path=\"a.txt\" action=\"rewrite\">\n    <change>\n      <description>File content</description>\n      <content><![CDATA[\nhello\n\n]]></content>\n    </change>\n  </file>\n</changes>"
      = [XNode.elem "changes" []
          [XNode.text "  ",
           XNode.elem "file" [("path", "a.txt"), ("action", "rewrite")]
            [XNode.text "\n    ",
             XNode.elem "change" []
              [XNode.text "\n      ",
               XNode.elem "description" [] [XNode.text "File content"],
               XNode.text "\n      ",
               XNode.elem "content" [] [XNode.cdata "\nhello\n\n"],
               XNode.text "\n    "],
             XNode.text "\n  "],
           XNode.text "\n"]] :=
    xnodesEq_sound _ _ (by decide)
  have he := prepareXml_eval [] c1Input
    "  <file path=\"a.txt\" action=\"rewrite\">\n    <change>\n      <description>File content</description>\n      <content><![CDATA[\nhello\n\n]]></content>\n    </change>\n  </file>\n"
    "<changes>  <file path=\"a.txt\" action=\"rewrite\">\n    <change>\n      <description>File content</description>\n      <content><![CDATA[\nhello\n\n]]></content>\n    </change>\n  </file>\n</changes>"
    c1Reader _
    [{ filePath := "a.txt", action := "rewrite", description := "File content",
       before := "hello\n", after := "hello" }]
    (by decide) (by decide) (by decide) h3 (by decide) (by decide) (by decide)
  rw [he]
  exact ⟨rfl, by decide⟩

/-- C8 counterexample: a retained file whose stat fails is skipped
entirely — it neither appears in the tree as a file node (with size 0 or
any size) nor in the biggest-files index. -/
theorem c8_cex :
    nodesHaveFile "a.txt" (getWorkspaceFileTree (fun _ => false) (fun _ => none) ["a.txt"]).1
      = false
    ∧ (getWorkspaceFileTree (fun _ => false) (fun _ => none) ["a.txt"]).1.length = 0
    ∧ (getWorkspaceFileTree (fun _ => false) (fun _ => none) ["a.txt"]).2.length = 0 := by
  refine ⟨by decide, by decide, by decide⟩

/-! ## Applier lemmas and claims C7, C10 -/

theorem applyAll_frame (l : List FileChange) :
    ∀ (fs : FS) (p : String), p ∉ l.map (fun c => c.filePath) →
      (l.foldl applyOne fs) p = fs p := by
  induction l with
  | nil => intro fs p _; rfl
  | cons c rest ih =>
    intro fs p hp
    simp only [List.map_cons, List.mem_cons] at hp
    push_neg at hp
    have hne : (p == c.filePath) = false := beq_eq_false_iff_ne.mpr hp.1
    have : applyOne fs c p = fs p := by
      unfold applyOne fsDelete fsWrite
      split <;> simp [hne]
    calc (List.foldl applyOne (applyOne fs c) rest) p
        = applyOne fs c p := ih (applyOne fs c) p hp.2
      _ = fs p := this

/-- C7: selection isolation.  Apply never touches a path that no selected
change names: for every batch, selection and filesystem, a path outside
the selected changes keeps its previous content; and when the selection
resolves to no changes, apply performs no filesystem mutation, reports
that nothing was applied (not an error) and keeps the batch. -/
theorem c7_theorem :
    (∀ (pending : List FileChange) (sel : List Nat) (fs : FS) (p : String),
      p ∉ (selectedChanges pending sel).map (fun c => c.filePath) →
      (applyPendingChanges pending sel fs).1 p = fs p)
    ∧ (∀ (pending : List FileChange) (sel : List Nat) (fs : FS),
      selectedChanges pending sel = [] →
      applyPendingChanges pending sel fs = (fs, ApplyOutcome.nothingApplied, pending)) := by
  constructor
  · intro pending sel fs p hp
    unfold applyPendingChanges
    dsimp only
    split
    · rfl
    · exact applyAll_frame (selectedChanges pending sel) fs p hp
  · intro pending sel fs h
    unfold applyPendingChanges
    dsimp only
    rw [h]
    rfl

/-- A selected change with an index outside the list is impossible; the
congruence of the selection filter under membership-equal index lists. -/
theorem selectAux_congr (sel sel2 : List Nat) :
    ∀ (l : List FileChange) (k : Nat),
      (∀ i, k ≤ i → i < k + l.length → sel.contains i = sel2.contains i) →
      selectAux sel k l = selectAux sel2 k l := by
  intro l
  induction l with
  | nil => intro k _; rfl
  | cons c rest ih =>
    intro k h
    have hk : sel.contains k = sel2.contains k := by
      refine h k (Nat.le_refl k) ?_
      simp [Nat.lt_add_of_pos_right, List.length]
    have hrest : selectAux sel (k + 1) rest = selectAux sel2 (k + 1) rest := by
      refine ih (k + 1) ?_
      intro i h1 h2
      refine h i (Nat.le_of_succ_le h1) ?_
      simp only [List.length_cons]
      omega
    unfold selectAux
    rw [hk, hrest]

/-- The selection filter yields a subsequence of the batch. -/
theorem selectAux_sublist (sel : List Nat) :
    ∀ (l : List FileChange) (k : Nat), (selectAux sel k l).Sublist l := by
  intro l
  induction l with
  | nil => intro k; simp [selectAux]
  | cons c rest ih =>
    intro k
    unfold selectAux
    split
    · exact List.Sublist.cons₂ c (ih (k + 1))
    · exact List.Sublist.cons c (ih (k + 1))

/-- C10: the outcome of apply depends only on the membership of
selectedIndexes over the batch positions — permuting or duplicating the
selection list changes nothing — and the changes that run are always a
subsequence of the batch: each selected change runs at most once, in
document order. -/
theorem c10_theorem :
    (∀ (pending : List FileChange) (sel sel2 : List Nat) (fs : FS),
      (∀ i, i < pending.length → sel.contains i = sel2.contains i) →
      applyPendingChanges pending sel fs = applyPendingChanges pending sel2 fs)
    ∧ (∀ (pending : List FileChange) (sel : List Nat),
      (selectedChanges pending sel).Sublist pending) := by
  constructor
  · intro pending sel sel2 fs h
    have hs : selectedChanges pending sel = selectedChanges pending sel2 := by
      refine selectAux_congr sel sel2 pending 0 ?_
      intro i _ h2
      exact h i (by simpa using h2)
    unfold applyPendingChanges
    dsimp only
    rw [hs]
  · intro pending sel
    exact selectAux_sublist sel pending 0

/-! ## Compiler action invariant (claim C9) -/


theorem changeNodeResult_action (reader : String → Option String)
    (filePath action : String) (node : XNode) (c : FileChange)
    (h : changeNodeResult reader filePath action node = some c) :
    c.action = "create" ∨ c.action = "rewrite" ∨ c.action = "delete" := by
  unfold changeNodeResult at h
  split at h
  · exact absurd h (by simp)
  · dsimp only at h
    split at h
    · right; right
      cases h
      rfl
    · split at h
      · rename_i hg
        rcases Bool.or_eq_true _ _ |>.mp hg with h1 | h1
        · left
          cases h
          exact beq_iff_eq.mp h1
        · right; left
          cases h
          exact beq_iff_eq.mp h1
      · exact absurd h (by simp)

theorem fileNodeChanges_action (reader : String → Option String) (node : XNode)
    (c : FileChange) (h : c ∈ fileNodeChanges reader node) :
    c.action = "create" ∨ c.action = "rewrite" ∨ c.action = "delete" := by
  cases node with
  | text s => exact absurd h (by simp [fileNodeChanges])
  | cdata s => exact absurd h (by simp [fileNodeChanges])
  | elem t attrs kids =>
    unfold fileNodeChanges at h
    dsimp only at h
    split at h
    · exact absurd h (by simp)
    · split at h
      · right; right
        rw [List.mem_singleton.mp h]
      · split at h
        · split at h
          · rename_i hg
            rcases Bool.or_eq_true _ _ |>.mp hg with h1 | h1
            · left
              rw [List.mem_singleton.mp h]
              exact beq_iff_eq.mp h1
            · right; left
              rw [List.mem_singleton.mp h]
              exact beq_iff_eq.mp h1
          · exact absurd h (by simp)
        · obtain ⟨x, _, hx⟩ := List.mem_filterMap.mp h
          exact changeNodeResult_action _ _ _ _ _ hx

/-- C9: every FileChange a compile call extracts carries one of the three
actions create, rewrite, delete; and a file element whose action attribute
is any string other than those three contributes no change at all, even
with well-formed change and content children. -/
theorem c9_theorem :
    (∀ (reader : String → Option String) (roots : List XNode) (c : FileChange),
      c ∈ extractChanges reader roots →
      c.action = "create" ∨ c.action = "rewrite" ∨ c.action = "delete")
    ∧ (∀ (reader : String → Option String) (attrs : List (String × String))
        (kids : List XNode),
      getAttr attrs "action" ≠ "create" →
      getAttr attrs "action" ≠ "rewrite" →
      getAttr attrs "action" ≠ "delete" →
      fileNodeChanges reader (XNode.elem "file" attrs kids) = []) := by
  constructor
  · intro reader roots c hc
    unfold extractChanges at hc
    obtain ⟨node, _, hn⟩ := List.mem_flatMap.mp hc
    exact fileNodeChanges_action reader node c hn
  · intro reader attrs kids h1 h2 h3
    have e1 : (getAttr attrs "action" == "create") = false := beq_eq_false_iff_ne.mpr h1
    have e2 : (getAttr attrs "action" == "rewrite") = false := beq_eq_false_iff_ne.mpr h2
    have e3 : (getAttr attrs "action" == "delete") = false := beq_eq_false_iff_ne.mpr h3
    unfold fileNodeChanges
    dsimp only
    split
    · rfl
    · rw [e3]
      simp only [Bool.false_eq_true, if_false, e1, e2, Bool.or_self]
      split
      · rfl
      · refine List.filterMap_eq_nil_iff.mpr ?_
        intro x _
        unfold changeNodeResult
        split
        · rfl
        · dsimp only
          rw [e2, e1]
          simp

/-! ## Empty rewrite is delete (claim C3) -/

/-- C3: a file element with action rewrite whose single change carries a
content payload that is empty after parsing compiles to exactly one
FileChange with action delete, the normalized filePath, the on-disk before
snapshot and an empty after; in particular the concrete fenced input of
the claim compiles to exactly one delete for a.txt. -/
theorem c3_theorem :
    (∀ (reader : String → Option String) (p s : String), p ≠ "" → jsTrim s = "" →
      fileNodeChanges reader
        (XNode.elem "file" [("path", p), ("action", "rewrite")]
          [XNode.elem "change" [] [XNode.elem "content" [] [XNode.text s]]])
      = [{ filePath := normalizeFilePath p, action := "delete",
           description := "Delete file " ++ normalizeFilePath p,
           before := readFileD reader (normalizeFilePath p), after := "" }])
    ∧ prepareXmlModifications [] c3Input c3Reader
      = ([{ filePath := "a.txt", action := "delete",
            description := "Delete file a.txt", before := "prev", after := "" }],
         PrepareOutcome.ok) := by
  constructor
  · intro reader p s hp hs
    have hpb : (p == "") = false := beq_eq_false_iff_ne.mpr hp
    have hraw : rawCodeOf s = "" := by
      unfold rawCodeOf
      split
      · rfl
      · exact hs
    unfold fileNodeChanges
    dsimp only
    rw [show getAttr [("path", p), ("action", "rewrite")] "path" = p from rfl,
        show getAttr [("path", p), ("action", "rewrite")] "action" = "rewrite" from rfl,
        hpb]
    simp only [Bool.false_or, Bool.or_false]
    rw [show (("rewrite" : String) == "") = false from rfl,
        show (("rewrite" : String) == "delete") = false from rfl]
    simp only [Bool.false_eq_true, if_false]
    rw [show descElems "change"
          (XNode.elem "file" [("path", p), ("action", "rewrite")]
            [XNode.elem "change" [] [XNode.elem "content" [] [XNode.text s]]])
        = [XNode.elem "change" [] [XNode.elem "content" [] [XNode.text s]]] from rfl]
    rw [show (([XNode.elem "change" [] [XNode.elem "content" [] [XNode.text s]]] :
          List XNode).isEmpty) = false from rfl]
    simp only [Bool.false_eq_true, if_false, List.filterMap_cons, List.filterMap_nil]
    unfold changeNodeResult
    rw [show (descElems "content" (XNode.elem "change" [] [XNode.elem "content" [] [XNode.text s]])).head?
        = some (XNode.elem "content" [] [XNode.text s]) from rfl]
    dsimp only
    rw [show textContent (XNode.elem "content" [] [XNode.text s]) = s ++ "" from rfl]
    rw [show (s ++ "" : String) = s from by simp]
    rw [hraw]
    rfl
  · have h3 : parseXmlT "<changes><file path=\"a.txt\" action=\"rewrite\"><change><content><![CDATA[\n\n]]></content></change></file></changes>"
        = [XNode.elem "changes" []
            [XNode.elem "file" [("path", "a.txt"), ("action", "rewrite")]
              [XNode.elem "change" [] [XNode.elem "content" [] [XNode.cdata "\n\n"]]]]] :=
      xnodesEq_sound _ _ (by decide)
    exact prepareXml_eval [] c3Input
      "<file path=\"a.txt\" action=\"rewrite\"><change><content><![CDATA[\n\n]]></content></change></file>"
      "<changes><file path=\"a.txt\" action=\"rewrite\"><change><content><![CDATA[\n\n]]></content></change></file></changes>"
      c3Reader _ _
      (by decide) (by decide) (by decide) h3 (by decide) (by decide) (by decide)

/-- Witness for C3 at a concrete instantiation of the general part. -/
theorem c3_theorem_witness :
    ("b.txt" : String) ≠ "" ∧ jsTrim " " = ""
    ∧ fileNodeChanges (fun _ => none)
        (XNode.elem "file" [("path", "b.txt"), ("action", "rewrite")]
          [XNode.elem "change" [] [XNode.elem "content" [] [XNode.text " "]]])
      = [{ filePath := "b.txt", action := "delete",
           description := "Delete file b.txt", before := "", after := "" }] := by
  refine ⟨by decide, by decide, ?_⟩
  have h := c3_theorem.1 (fun _ => none) "b.txt" " " (by decide) (by decide)
  rw [h]
  decide

/-! ## Compile failure and the pending batch (claim C5) -/

/-- C5: code bug — the parse-error abort the claim describes is dead code:
xmldom 0.6.0 driven with the source's logging-only errorHandler (lines
196-206) neither throws nor creates parsererror elements, so the returns
at lines 209-220 never fire.  A compile call over structurally broken
markup therefore does not abort with the error reported and an empty
batch: the parse recovers (the mismatched closing tag is skipped), the
previous batch is cleared at line 222, and extraction on the recovered DOM
pushes a create for x — the resulting batch is neither empty nor the
previous one.  Had the dead check fired, it would moreover have returned
before the clear at line 222, leaving the previous batch pending rather
than an empty one. -/
theorem c5_theorem :
    prepareXmlModifications c5Prev c5BadInput (fun _ => none)
      = ([{ filePath := "x", action := "create", description := "Create file x",
            before := "", after := "" }], PrepareOutcome.ok)
    ∧ (prepareXmlModifications c5Prev c5BadInput (fun _ => none)).1 ≠ []
    ∧ (prepareXmlModifications c5Prev c5BadInput (fun _ => none)).1 ≠ c5Prev := by
  have h3 : parseXmlT c5BadInput
      = [XNode.elem "changes" []
          [XNode.elem "file" [("path", "x"), ("action", "create")] []]] :=
    xnodesEq_sound _ _ (by decide)
  have he := prepareXml_eval c5Prev c5BadInput c5BadInput c5BadInput (fun _ => none) _
    [{ filePath := "x", action := "create", description := "Create file x",
       before := "", after := "" }]
    (by decide) (by decide) (by decide) h3 (by decide) (by decide) (by decide)
  rw [he]
  exact ⟨rfl, by decide, by decide⟩

/-! ## Emitter inclusion (claim C6) -/

/-- C6 amended: with a non-empty selection and a non-binary candidate, the
emitter includes the file exactly when it is explicitly selected, or is a
selected directory path itself, or lies under one by whole path segments,
or — for a selected directory path that itself contains a slash — shares
it as a plain string lead (the naive branch); the claimed lib versus lib2
separation does hold for the top-level directory lib. -/
theorem c6_theorem :
    (∀ (selFiles selDirs : List String) (rel : String),
      (selFiles ≠ [] ∨ selDirs ≠ []) → isBinaryPath rel = false →
      (includeFileInContent selFiles selDirs rel = true ↔
        (rel ∈ selFiles ∨ ∃ d ∈ selDirs, rel = d
          ∨ strStartsWith rel (d ++ "/") = true
          ∨ (strContainsChar d '/' = true ∧ strStartsWith rel d = true))))
    ∧ includeFileInContent [] ["lib"] "lib/a.js" = true
    ∧ includeFileInContent [] ["lib"] "lib2/b.js" = false := by
  refine ⟨?_, by decide, by decide⟩
  intro sf sd rel hne hbin
  unfold includeFileInContent
  have hcond : (decide (sf.length > 0) || decide (sd.length > 0)) = true := by
    rcases hne with h | h
    · have : 0 < sf.length := List.length_pos.mpr h
      simp [this]
    · have : 0 < sd.length := List.length_pos.mpr h
      simp [this]
  simp only [hcond, if_true, hbin, Bool.false_eq_true, if_false, Bool.not_false,
    Bool.and_true]
  by_cases hm : sf.contains rel = true
  · have : rel ∈ sf := List.mem_of_elem_eq_true hm
    simp [hm, this]
  · have hnm : rel ∉ sf := fun hmem => hm (List.elem_eq_true_of_mem hmem)
    simp only [hm, Bool.false_eq_true, if_false]
    rw [List.any_eq_true]
    constructor
    · rintro ⟨d, hd, hp⟩
      rcases Bool.or_eq_true _ _ |>.mp hp with hp1 | hp2
      · rcases Bool.or_eq_true _ _ |>.mp hp1 with he | hst
        · exact Or.inr ⟨d, hd, Or.inl (beq_iff_eq.mp he)⟩
        · exact Or.inr ⟨d, hd, Or.inr (Or.inl hst)⟩
      · rcases Bool.and_eq_true _ _ |>.mp hp2 with ⟨hc, hst⟩
        exact Or.inr ⟨d, hd, Or.inr (Or.inr ⟨hc, hst⟩)⟩
    · rintro (hmem | ⟨d, hd, hcase⟩)
      · exact absurd hmem hnm
      · refine ⟨d, hd, ?_⟩
        rcases hcase with he | hst | ⟨hc, hst⟩
        · simp [he]
        · simp [hst]
        · simp [hc, hst]

/-- Witness for C6 at a concrete nested selection. -/
theorem c6_theorem_witness :
    (includeFileInContent [] ["src/lib"] "src/lib2/b.js" = true ↔
      ("src/lib2/b.js" : String) ∈ ([] : List String)
        ∨ ∃ d ∈ ["src/lib"], ("src/lib2/b.js" : String) = d
          ∨ strStartsWith "src/lib2/b.js" (d ++ "/") = true
          ∨ (strContainsChar d '/' = true ∧ strStartsWith "src/lib2/b.js" d = true)) := by
  exact c6_theorem.1 [] ["src/lib"] "src/lib2/b.js" (Or.inr (by decide)) (by decide)

/-! ## Fence-repair lemmas (claim C4) -/

theorem firstEq_none_of_tc_zero : ∀ l : List Char, tripleCount l = 0 → firstEq l = none := by
  intro l
  induction l with
  | nil => intro _; rfl
  | cons c cs ih =>
    intro h
    unfold tripleCount at h
    by_cases hq : hasEqAt (c :: cs) = true
    · rw [hq] at h
      simp at h
    · rw [Bool.not_eq_true] at hq
      rw [hq] at h
      simp only [Bool.false_eq_true, if_false, Nat.zero_add] at h
      unfold firstEq
      rw [hq]
      simp [ih h]

theorem lastEqAux_none_of_tc_zero : ∀ l : List Char, tripleCount l = 0 → lastEqAux l = none := by
  intro l
  induction l with
  | nil => intro _; rfl
  | cons c cs ih =>
    intro h
    unfold tripleCount at h
    by_cases hq : hasEqAt (c :: cs) = true
    · rw [hq] at h
      simp at h
    · rw [Bool.not_eq_true] at hq
      rw [hq] at h
      simp only [Bool.false_eq_true, if_false, Nat.zero_add] at h
      unfold lastEqAux
      rw [ih h, hq]
      simp

theorem lastEqAux_some_of_tc_pos : ∀ l : List Char, 1 ≤ tripleCount l →
    ∃ i, lastEqAux l = some i := by
  intro l
  induction l with
  | nil => intro h; simp [tripleCount] at h
  | cons c cs ih =>
    intro h
    by_cases hcs : 1 ≤ tripleCount cs
    · obtain ⟨i, hi⟩ := ih hcs
      refine ⟨i + 1, ?_⟩
      unfold lastEqAux
      rw [hi]
    · have hz : tripleCount cs = 0 := by omega
      have hq : hasEqAt (c :: cs) = true := by
        by_contra hq
        rw [Bool.not_eq_true] at hq
        unfold tripleCount at h
        rw [hq] at h
        simp only [Bool.false_eq_true, if_false, Nat.zero_add] at h
        omega
      refine ⟨0, ?_⟩
      unfold lastEqAux
      rw [lastEqAux_none_of_tc_zero cs hz, hq]
      simp

theorem tc_one_first_eq_last : ∀ l : List Char, tripleCount l = 1 →
    ∃ i, firstEq l = some i ∧ lastEqAux l = some i := by
  intro l
  induction l with
  | nil => intro h; simp [tripleCount] at h
  | cons c cs ih =>
    intro h
    unfold tripleCount at h
    by_cases hq : hasEqAt (c :: cs) = true
    · rw [hq] at h
      simp only [if_true] at h
      have hz : tripleCount cs = 0 := by omega
      refine ⟨0, ?_, ?_⟩
      · unfold firstEq
        rw [hq]
        simp
      · unfold lastEqAux
        rw [lastEqAux_none_of_tc_zero cs hz, hq]
        simp
    · rw [Bool.not_eq_true] at hq
      rw [hq] at h
      simp only [Bool.false_eq_true, if_false, Nat.zero_add] at h
      obtain ⟨i, hf, hl⟩ := ih h
      refine ⟨i + 1, ?_, ?_⟩
      · unfold firstEq
        rw [hq, hf]
        simp
      · unfold lastEqAux
        rw [hl]

theorem tc_two_first_lt_last : ∀ l : List Char, 2 ≤ tripleCount l →
    ∃ fi li, firstEq l = some fi ∧ lastEqAux l = some li ∧ fi < li := by
  intro l
  induction l with
  | nil => intro h; simp [tripleCount] at h
  | cons c cs ih =>
    intro h
    by_cases hq : hasEqAt (c :: cs) = true
    · have hcs : 1 ≤ tripleCount cs := by
        unfold tripleCount at h
        rw [hq] at h
        simp only [if_true] at h
        omega
      obtain ⟨j, hj⟩ := lastEqAux_some_of_tc_pos cs hcs
      refine ⟨0, j + 1, ?_, ?_, ?_⟩
      · unfold firstEq
        rw [hq]
        simp
      · unfold lastEqAux
        rw [hj]
      · omega
    · rw [Bool.not_eq_true] at hq
      have hcs : 2 ≤ tripleCount cs := by
        unfold tripleCount at h
        rw [hq] at h
        simpa using h
      obtain ⟨fi, li, hf, hl, hlt⟩ := ih hcs
      refine ⟨fi + 1, li + 1, ?_, ?_, ?_⟩
      · unfold firstEq
        rw [hq, hf]
        simp
      · unfold lastEqAux
        rw [hl]
      · omega

theorem matchCI_append : ∀ pat s sl r : List Char,
    matchCI pat s = some (sl, r) → s = sl ++ r := by
  intro pat
  induction pat with
  | nil =>
    intro s sl r h
    unfold matchCI at h
    cases h
    rfl
  | cons p ps ih =>
    intro s sl r h
    cases s with
    | nil => exact absurd h (by simp [matchCI])
    | cons c cs =>
      unfold matchCI at h
      split at h
      · cases hm : matchCI ps cs with
        | none => rw [hm] at h; exact absurd h (by simp)
        | some pr =>
          obtain ⟨sl1, r1⟩ := pr
          rw [hm] at h
          have h2 : some (c :: sl1, r1) = some (sl, r) := h
          have h3 : (c :: sl1, r1) = (sl, r) := Option.some_inj.mp h2
          have hsl : c :: sl1 = sl := congrArg Prod.fst h3
          have hr : r1 = r := congrArg Prod.snd h3
          have hcs : cs = sl1 ++ r1 := ih cs sl1 r1 hm
          rw [← hsl, ← hr, hcs]
          rfl
      · exact absurd h (by simp)

theorem splitOnGt_append : ∀ s a r : List Char,
    splitOnGt s = some (a, r) → s = a ++ '>' :: r := by
  intro s
  induction s with
  | nil => intro a r h; exact absurd h (by simp [splitOnGt])
  | cons c cs ih =>
    intro a r h
    unfold splitOnGt at h
    split at h
    · cases h
      rename_i hc
      rw [hc]
      rfl
    · cases hm : splitOnGt cs with
      | none => rw [hm] at h; exact absurd h (by simp)
      | some pr =>
        obtain ⟨a1, r1⟩ := pr
        rw [hm] at h
        have h2 : some (c :: a1, r1) = some (a, r) := h
        have h3 : (c :: a1, r1) = (a, r) := Option.some_inj.mp h2
        have hsl : c :: a1 = a := congrArg Prod.fst h3
        have hr : r1 = r := congrArg Prod.snd h3
        have hcs : cs = a1 ++ '>' :: r1 := ih a1 r1 hm
        rw [← hsl, ← hr, hcs]
        rfl

theorem matchContentOpen_append : ∀ s op rest : List Char,
    matchContentOpen s = some (op, rest) → s = op ++ rest := by
  intro s op rest h
  unfold matchContentOpen at h
  cases hm : matchCI openTagChars s with
  | none => rw [hm] at h; exact absurd h (by simp)
  | some pr =>
    rw [hm] at h
    obtain ⟨sl, r1⟩ := pr
    cases r1 with
    | nil => exact absurd h (by simp)
    | cons r rs =>
      dsimp only at h
      split at h
      · exact absurd h (by simp)
      · cases hg : splitOnGt (r :: rs) with
        | none => rw [hg] at h; exact absurd h (by simp)
        | some gr =>
          rw [hg] at h
          obtain ⟨attrs, after⟩ := gr
          have h2 : (sl ++ attrs ++ ['>'], after) = (op, rest) := Option.some_inj.mp h
          have hop : sl ++ attrs ++ ['>'] = op := congrArg Prod.fst h2
          have hrest : after = rest := congrArg Prod.snd h2
          have e1 : s = sl ++ r :: rs := matchCI_append _ _ _ _ hm
          have e2 : r :: rs = attrs ++ '>' :: after := splitOnGt_append _ _ _ hg
          rw [e1, e2, ← hop, ← hrest]
          simp

theorem splitFirstCI_append : ∀ (pat s b sl r : List Char),
    splitFirstCI pat s = some (b, sl, r) → s = b ++ sl ++ r := by
  intro pat s
  induction s with
  | nil => intro b sl r h; exact absurd h (by simp [splitFirstCI])
  | cons c cs ih =>
    intro b sl r h
    unfold splitFirstCI at h
    cases hm : matchCI pat (c :: cs) with
    | some pr =>
      rw [hm] at h
      obtain ⟨sl1, r1⟩ := pr
      have h2 : (([] : List Char), sl1, r1) = (b, sl, r) := Option.some_inj.mp h
      have hb : ([] : List Char) = b := congrArg Prod.fst h2
      have hsl : sl1 = sl := congrArg (fun p => p.2.1) h2
      have hr : r1 = r := congrArg (fun p => p.2.2) h2
      have := matchCI_append _ _ _ _ hm
      rw [← hb, ← hsl, ← hr]
      simpa using this
    | none =>
      rw [hm] at h
      cases hs : splitFirstCI pat cs with
      | none => rw [hs] at h; exact absurd h (by simp)
      | some tr =>
        obtain ⟨b1, sl1, r1⟩ := tr
        rw [hs] at h
        have h2 : (c :: b1, sl1, r1) = (b, sl, r) := Option.some_inj.mp h
        have hb : c :: b1 = b := congrArg Prod.fst h2
        have hsl : sl1 = sl := congrArg (fun p => p.2.1) h2
        have hr : r1 = r := congrArg (fun p => p.2.2) h2
        have hcs : cs = b1 ++ sl1 ++ r1 := ih b1 sl1 r1 hs
        rw [← hb, ← hsl, ← hr, hcs]
        rfl

theorem noTriple_right : ∀ x y : List Char, noTriple (x ++ y) = true → noTriple y = true := by
  intro x
  induction x with
  | nil => intro y h; exact h
  | cons c cs ih =>
    intro y h
    have h2 : (!hasEqAt (c :: (cs ++ y)) && noTriple (cs ++ y)) = true := h
    rw [Bool.and_eq_true] at h2
    exact ih y h2.2

theorem hasEqAt_append : ∀ l t : List Char, hasEqAt l = true → hasEqAt (l ++ t) = true := by
  intro l t h
  unfold hasEqAt at h ⊢
  rw [List.isPrefixOf_iff_prefix] at h ⊢
  exact h.trans (List.prefix_append l t)

theorem firstEq_none_of_noTriple : ∀ l t : List Char,
    noTriple (l ++ t) = true → firstEq l = none := by
  intro l
  induction l with
  | nil => intro t _; rfl
  | cons c cs ih =>
    intro t h
    have h2 : (!hasEqAt (c :: (cs ++ t)) && noTriple (cs ++ t)) = true := h
    rw [Bool.and_eq_true] at h2
    have hq : hasEqAt (c :: cs) = false := by
      by_contra hq
      rw [Bool.not_eq_false] at hq
      have h3 := hasEqAt_append (c :: cs) t hq
      rw [show (c :: cs) ++ t = c :: (cs ++ t) from rfl] at h3
      rw [h3] at h2
      simp at h2
    unfold firstEq
    rw [hq, ih t h2.2]
    simp

theorem repairScan_noop : ∀ (fuel : Nat) (s : List Char),
    noTriple s = true → repairScan fuel s = s := by
  intro fuel
  induction fuel with
  | zero => intro s _; rfl
  | succ fuel ih =>
    intro s hs
    cases s with
    | nil => rfl
    | cons c cs =>
      have hcs : noTriple cs = true := by
        have h2 : (!hasEqAt (c :: cs) && noTriple cs) = true := hs
        rw [Bool.and_eq_true] at h2
        exact h2.2
      cases hmo : matchContentOpen (c :: cs) with
      | none =>
        unfold repairScan
        rw [hmo]
        dsimp only
        rw [ih cs hcs]
      | some pr =>
        obtain ⟨op, afterOpen⟩ := pr
        cases hsp : splitFirstCI closeTagChars afterOpen with
        | none =>
          unfold repairScan
          rw [hmo]
          dsimp only
          rw [hsp]
          dsimp only
          rw [ih cs hcs]
        | some tri =>
          obtain ⟨inside, closeSl, rest⟩ := tri
          have e1 : c :: cs = op ++ afterOpen := matchContentOpen_append _ _ _ hmo
          have e2 : afterOpen = inside ++ closeSl ++ rest := splitFirstCI_append _ _ _ _ _ hsp
          have hAfter : noTriple afterOpen = true := by
            have h3 := hs
            rw [e1] at h3
            exact noTriple_right op afterOpen h3
          have hInTail : noTriple (inside ++ (closeSl ++ rest)) = true := by
            rw [← List.append_assoc, ← e2]
            exact hAfter
          have hRI : repairInside inside = none := by
            unfold repairInside
            rw [firstEq_none_of_noTriple inside (closeSl ++ rest) hInTail]
          have hRest : noTriple rest = true :=
            noTriple_right closeSl rest
              (noTriple_right inside (closeSl ++ rest) hInTail)
          unfold repairScan
          rw [hmo]
          dsimp only
          rw [hsp]
          dsimp only
          rw [hRI]
          dsimp only
          rw [ih rest hRest, e1, e2]
          simp

/-- C4 amended: for a content region whose inner text has at least two
(possibly overlapping) occurrences of === , the repair replaces the region
by a CDATA region whose payload is the JS substring between the end of the
first occurrence and the start of the last — which is the substring
strictly between them when they do not overlap, and the swapped-bound
substring when they do; with fewer than two occurrences the region is kept
unchanged; and on text with no === marker at all the whole repair is a
no-op. -/
theorem c4_theorem :
    (∀ inside : List Char, 2 ≤ tripleCount inside →
      ∃ fi li, firstEq inside = some fi ∧ lastEq inside = some li ∧ fi < li
        ∧ repairInside inside
          = some (cdataOpenChars ++ jsSubstring inside (fi + 3) li ++ cdataCloseChars))
    ∧ (∀ inside : List Char, tripleCount inside < 2 → repairInside inside = none)
    ∧ (∀ s : String, noTriple s.data = true → convertTripleEqualsToCdata s = s) := by
  refine ⟨?_, ?_, ?_⟩
  · intro inside h
    obtain ⟨fi, li, hf, hl, hlt⟩ := tc_two_first_lt_last inside h
    refine ⟨fi, li, hf, hl, hlt, ?_⟩
    unfold repairInside lastEq
    rw [hf, hl]
    simp [hlt]
  · intro inside h
    match hc : tripleCount inside with
    | 0 =>
      unfold repairInside
      rw [firstEq_none_of_tc_zero inside hc]
    | 1 =>
      obtain ⟨i, hf, hl⟩ := tc_one_first_eq_last inside hc
      unfold repairInside lastEq
      rw [hf, hl]
      simp
    | n + 2 =>
      rw [hc] at h
      omega
  · intro s hs
    unfold convertTripleEqualsToCdata
    rw [repairScan_noop _ s.data hs]

/-- Witness for C4 at concrete region texts. -/
theorem c4_theorem_witness :
    (∃ fi li, firstEq "a===b===c".data = some fi ∧ lastEq "a===b===c".data = some li
      ∧ fi < li
      ∧ repairInside "a===b===c".data
        = some (cdataOpenChars ++ jsSubstring "a===b===c".data (fi + 3) li ++ cdataCloseChars))
    ∧ repairInside "ab".data = none
    ∧ convertTripleEqualsToCdata "hello" = "hello" :=
  ⟨c4_theorem.1 _ (by decide), c4_theorem.2.1 _ (by decide), c4_theorem.2.2 _ (by decide)⟩

/-! ## Tree-builder lemmas (claim C8) -/

theorem nodesHaveFile_append (q : String) :
    ∀ xs ys : List WNode,
      nodesHaveFile q (xs ++ ys) = (nodesHaveFile q xs || nodesHaveFile q ys) := by
  intro xs ys
  induction xs with
  | nil => simp [nodesHaveFile]
  | cons x rest ih =>
    show (nodeHasFile q x || nodesHaveFile q (rest ++ ys)) = _
    rw [ih]
    show _ = ((nodeHasFile q x || nodesHaveFile q rest) || nodesHaveFile q ys)
    rw [Bool.or_assoc]

theorem nodesHaveFile_mapUpdateDir (q : String) :
    ∀ (nodes : List WNode) (d : String) (f : List WNode → List WNode) (b : Bool),
      (∀ ch, nodesHaveFile q (f ch) = (nodesHaveFile q ch || b)) →
      containsDir nodes d = true →
      nodesHaveFile q (mapUpdateDir nodes d f) = (nodesHaveFile q nodes || b) := by
  intro nodes
  induction nodes with
  | nil => intro d f b _ hc; simp [containsDir] at hc
  | cons x rest ih =>
    intro d f b hf hc
    cases x with
    | file p n s sel e =>
      have hc2 : containsDir rest d = true := by
        simpa [containsDir, List.any_cons] using hc
      show (nodeHasFile q (WNode.file p n s sel e)
          || nodesHaveFile q (mapUpdateDir rest d f)) = _
      rw [ih d f b hf hc2]
      show _ = ((nodeHasFile q (WNode.file p n s sel e) || nodesHaveFile q rest) || b)
      rw [Bool.or_assoc]
    | dir p n ch sel e =>
      by_cases hp : (p == d) = true
      · unfold mapUpdateDir
        rw [if_pos hp]
        show (nodesHaveFile q (f ch) || nodesHaveFile q rest) = _
        rw [hf ch]
        show _ = ((nodesHaveFile q ch || nodesHaveFile q rest) || b)
        rw [Bool.or_assoc, Bool.or_assoc, Bool.or_comm b (nodesHaveFile q rest)]
      · rw [Bool.not_eq_true] at hp
        have hc2 : containsDir rest d = true := by
          have h3 := hc
          unfold containsDir at h3 ⊢
          rw [List.any_cons] at h3
          simpa [hp] using h3
        unfold mapUpdateDir
        rw [hp]
        simp only [Bool.false_eq_true, if_false]
        show (nodesHaveFile q ch || nodesHaveFile q (mapUpdateDir rest d f)) = _
        rw [ih d f b hf hc2]
        show _ = ((nodesHaveFile q ch || nodesHaveFile q rest) || b)
        rw [Bool.or_assoc]

theorem nodesHaveFile_insertFile (q : String) :
    ∀ (parts : List String) (nodes : List WNode) (parent : String) (obj : WNode),
      nodesHaveFile q (insertFile nodes parent parts obj)
        = (nodesHaveFile q nodes || nodeHasFile q obj) := by
  intro parts
  induction parts with
  | nil =>
    intro nodes parent obj
    unfold insertFile
    rw [nodesHaveFile_append]
    show _ = (nodesHaveFile q nodes || nodeHasFile q obj)
    simp [nodesHaveFile]
  | cons part rest ih =>
    intro nodes parent obj
    unfold insertFile
    dsimp only
    generalize (if (parent == "") = true then part else parent ++ "/" ++ part) = dirPath
    split
    · rename_i hc
      exact nodesHaveFile_mapUpdateDir q nodes dirPath _ _ (fun ch => ih ch dirPath obj) hc
    · rw [nodesHaveFile_append]
      have hnew : nodesHaveFile q
          [WNode.dir dirPath part (insertFile [] dirPath rest obj) true false]
          = nodeHasFile q obj := by
        show (nodesHaveFile q (insertFile [] dirPath rest obj) || false) = _
        rw [ih [] dirPath obj]
        simp [nodesHaveFile]
      rw [hnew]

theorem nodesHaveFile_insertSorted (q : String) (le : WNode → WNode → Bool) (x : WNode) :
    ∀ l : List WNode,
      nodesHaveFile q (insertSorted le x l) = (nodeHasFile q x || nodesHaveFile q l) := by
  intro l
  induction l with
  | nil => rfl
  | cons y ys ih =>
    unfold insertSorted
    split
    · rfl
    · show (nodeHasFile q y || nodesHaveFile q (insertSorted le x ys)) = _
      rw [ih]
      show _ = (nodeHasFile q x || (nodeHasFile q y || nodesHaveFile q ys))
      rw [← Bool.or_assoc, ← Bool.or_assoc, Bool.or_comm (nodeHasFile q y) (nodeHasFile q x)]

theorem nodesHaveFile_sortByLe (q : String) (le : WNode → WNode → Bool) :
    ∀ l : List WNode, nodesHaveFile q (sortByLe le l) = nodesHaveFile q l := by
  intro l
  induction l with
  | nil => rfl
  | cons x xs ih =>
    unfold sortByLe
    rw [nodesHaveFile_insertSorted, ih]
    rfl

mutual

theorem nodeHasFile_sortNode (q : String) :
    ∀ x : WNode, nodeHasFile q (sortNode x) = nodeHasFile q x
  | WNode.file _ _ _ _ _ => rfl
  | WNode.dir p n ch sel e => by
    show nodesHaveFile q (sortByLe nodeLe (sortNodes ch)) = nodesHaveFile q ch
    rw [nodesHaveFile_sortByLe, nodesHaveFile_sortNodes q ch]

theorem nodesHaveFile_sortNodes (q : String) :
    ∀ l : List WNode, nodesHaveFile q (sortNodes l) = nodesHaveFile q l
  | [] => rfl
  | x :: xs => by
    show (nodeHasFile q (sortNode x) || nodesHaveFile q (sortNodes xs)) = _
    rw [nodeHasFile_sortNode q x, nodesHaveFile_sortNodes q xs]
    rfl

end

theorem nodesHaveFile_sortTree (q : String) (t : List WNode) :
    nodesHaveFile q (sortTree t) = nodesHaveFile q t := by
  unfold sortTree
  rw [nodesHaveFile_sortByLe, nodesHaveFile_sortNodes]

theorem mem_insertSorted (le : WNode → WNode → Bool) (x n : WNode) :
    ∀ l : List WNode, n ∈ insertSorted le x l → n = x ∨ n ∈ l := by
  intro l
  induction l with
  | nil =>
    intro h
    simp [insertSorted] at h
    exact Or.inl h
  | cons y ys ih =>
    intro h
    unfold insertSorted at h
    split at h
    · rcases List.mem_cons.mp h with h1 | h1
      · exact Or.inl h1
      · exact Or.inr h1
    · rcases List.mem_cons.mp h with h1 | h1
      · exact Or.inr (h1 ▸ List.mem_cons_self y ys)
      · rcases ih h1 with h2 | h2
        · exact Or.inl h2
        · exact Or.inr (List.mem_cons_of_mem y h2)

theorem mem_sortByLe (le : WNode → WNode → Bool) (n : WNode) :
    ∀ l : List WNode, n ∈ sortByLe le l → n ∈ l := by
  intro l
  induction l with
  | nil => intro h; exact absurd h (by simp [sortByLe])
  | cons x xs ih =>
    intro h
    unfold sortByLe at h
    rcases mem_insertSorted le x n _ h with h1 | h1
    · exact h1 ▸ List.mem_cons_self x xs
    · exact List.mem_cons_of_mem x (ih h1)

theorem treeStep_preserves (ig : String → Bool) (stat : String → Option Nat)
    (f : String) (hstat : stat f = none) (acc : List WNode × List WNode) (rel : String)
    (h1 : nodesHaveFile f acc.1 = false) (h2 : ∀ n ∈ acc.2, wpath n ≠ f) :
    nodesHaveFile f (treeStep ig stat acc rel).1 = false
    ∧ ∀ n ∈ (treeStep ig stat acc rel).2, wpath n ≠ f := by
  unfold treeStep
  split
  · exact ⟨h1, h2⟩
  · cases hs : stat rel with
    | none => exact ⟨h1, h2⟩
    | some size =>
      have hne : rel ≠ f := by
        intro he
        rw [he, hstat] at hs
        cases hs
      dsimp only
      constructor
      · rw [nodesHaveFile_insertFile]
        rw [h1]
        show (false || (rel == f)) = false
        rw [beq_eq_false_iff_ne.mpr hne]
        rfl
      · intro n hn
        rcases List.mem_append.mp hn with hn1 | hn1
        · exact h2 n hn1
        · rw [List.mem_singleton.mp hn1]
          exact hne

theorem treeFold_preserves (ig : String → Bool) (stat : String → Option Nat)
    (f : String) (hstat : stat f = none) :
    ∀ (fl : List String) (acc : List WNode × List WNode),
      nodesHaveFile f acc.1 = false → (∀ n ∈ acc.2, wpath n ≠ f) →
      nodesHaveFile f (fl.foldl (treeStep ig stat) acc).1 = false
      ∧ ∀ n ∈ (fl.foldl (treeStep ig stat) acc).2, wpath n ≠ f := by
  intro fl
  induction fl with
  | nil => intro acc h1 h2; exact ⟨h1, h2⟩
  | cons rel rest ih =>
    intro acc h1 h2
    have hstep := treeStep_preserves ig stat f hstat acc rel h1 h2
    exact ih (treeStep ig stat acc rel) hstep.1 hstep.2

/-- C8 amended: a retained file whose size cannot be read is skipped
entirely: it is absent from the biggest-files index AND absent from the
resulting tree (no file node with its path exists, with size 0 or any
other size). -/
theorem c8_theorem (ig : String → Bool) (stat : String → Option Nat)
    (files : List String) (f : String)
    (_hmem : f ∈ files) (_hig : ig f = false) (hstat : stat f = none) :
    nodesHaveFile f (getWorkspaceFileTree ig stat files).1 = false
    ∧ ∀ n ∈ (getWorkspaceFileTree ig stat files).2, wpath n ≠ f := by
  unfold getWorkspaceFileTree
  dsimp only
  have hfold := treeFold_preserves ig stat f hstat files ([], [])
    (by rfl) (by intro n hn; exact absurd hn (by simp))
  constructor
  · rw [nodesHaveFile_sortTree]
    exact hfold.1
  · intro n hn
    have hn2 : n ∈ sortByLe sizeGe (files.foldl (treeStep ig stat) ([], [])).2 :=
      List.mem_of_mem_take hn
    exact hfold.2 n (mem_sortByLe sizeGe n _ hn2)

/-- Witness for C8 at a concrete two-file workspace where only the stat of
one file fails. -/
theorem c8_theorem_witness :
    ("bad.txt" : String) ∈ ["ok.txt", "bad.txt"]
    ∧ nodesHaveFile "bad.txt"
        (getWorkspaceFileTree (fun _ => false)
          (fun p => if p == "ok.txt" then some 7 else none)
          ["ok.txt", "bad.txt"]).1 = false
    ∧ ∀ n ∈ (getWorkspaceFileTree (fun _ => false)
        (fun p => if p == "ok.txt" then some 7 else none)
        ["ok.txt", "bad.txt"]).2, wpath n ≠ "bad.txt" := by
  refine ⟨by decide, ?_, ?_⟩
  · exact (c8_theorem (fun _ => false) (fun p => if p == "ok.txt" then some 7 else none)
      ["ok.txt", "bad.txt"] "bad.txt" (by decide) (by decide) (by decide)).1
  · exact (c8_theorem (fun _ => false) (fun p => if p == "ok.txt" then some 7 else none)
      ["ok.txt", "bad.txt"] "bad.txt" (by decide) (by decide) (by decide)).2

/-- Witness for C7: an out-of-range selection applies nothing and leaves
the filesystem and batch untouched. -/
theorem c7_theorem_witness :
    (applyPendingChanges
        [{ filePath := "a.txt", action := "create", description := "d",
           before := "", after := "x" }] [5] (fun _ => none)).1 "b.txt"
      = (fun _ => none : FS) "b.txt"
    ∧ applyPendingChanges
        [{ filePath := "a.txt", action := "create", description := "d",
           before := "", after := "x" }] [5] (fun _ => none)
      = ((fun _ => none : FS), ApplyOutcome.nothingApplied,
         [{ filePath := "a.txt", action := "create", description := "d",
            before := "", after := "x" }]) :=
  ⟨c7_theorem.1 _ [5] (fun _ => none) "b.txt" (by decide),
   c7_theorem.2 _ [5] (fun _ => none) (by decide)⟩

/-- Witness for C10: a permuted selection list with a duplicate behaves as
the plain one, and the selected changes form a subsequence. -/
theorem c10_theorem_witness :
    applyPendingChanges
        [{ filePath := "a.txt", action := "create", description := "d",
           before := "", after := "x" },
         { filePath := "b.txt", action := "delete", description := "e",
           before := "y", after := "" }] [1, 0, 0] (fun _ => none)
      = applyPendingChanges
        [{ filePath := "a.txt", action := "create", description := "d",
           before := "", after := "x" },
         { filePath := "b.txt", action := "delete", description := "e",
           before := "y", after := "" }] [0, 1] (fun _ => none)
    ∧ (selectedChanges
        [{ filePath := "a.txt", action := "create", description := "d",
           before := "", after := "x" },
         { filePath := "b.txt", action := "delete", description := "e",
           before := "y", after := "" }] [1, 0, 0]).Sublist
        [{ filePath := "a.txt", action := "create", description := "d",
           before := "", after := "x" },
         { filePath := "b.txt", action := "delete", description := "e",
           before := "y", after := "" }] :=
  ⟨c10_theorem.1 _ [1, 0, 0] [0, 1] (fun _ => none) (by decide),
   c10_theorem.2 _ [1, 0, 0]⟩

/-- Witness for C9: a file element with the unrecognized action update and
a well-formed change child contributes nothing, while a compiled delete
carries one of the three actions. -/
theorem c9_theorem_witness :
    (({ filePath := "x.txt", action := "delete",
        description := "Delete file x.txt", before := "", after := "" } : FileChange).action
        = "create"
      ∨ ({ filePath := "x.txt", action := "delete",
           description := "Delete file x.txt", before := "", after := "" } : FileChange).action
        = "rewrite"
      ∨ ({ filePath := "x.txt", action := "delete",
           description := "Delete file x.txt", before := "", after := "" } : FileChange).action
        = "delete")
    ∧ fileNodeChanges (fun _ => none)
        (XNode.elem "file" [("path", "y.txt"), ("action", "update")]
          [XNode.elem "change" []
            [XNode.elem "content" [] [XNode.text "payload"]]])
      = [] :=
  ⟨c9_theorem.1 (fun _ => none)
    [XNode.elem "file" [("path", "x.txt"), ("action", "delete")] []]
    { filePath := "x.txt", action := "delete",
      description := "Delete file x.txt", before := "", after := "" }
    (by decide),
   c9_theorem.2 (fun _ => none) [("path", "y.txt"), ("action", "update")]
    [XNode.elem "change" [] [XNode.elem "content" [] [XNode.text "payload"]]]
    (by decide) (by decide) (by decide)⟩
